import Mathlib

/-!
Shallow embedding of `containers::GuardedSequenceContainer`
(src/include/containers/guarded_sequence_container.hpp) and of the view /
iterator machinery it uses.

The underlying storage (`m_container`, a sequence container such as
`std::vector`) is modelled as a `List α`; iterator positions are modelled as
indices into that list.  The element type's default value (`value_type()`,
used as the tombstone) is an explicit parameter `d`, and the container's
validity predicate `ValidElementFunction` is an explicit parameter
`valid : α → Bool`.

The headers `containers/iterator.hpp` (type `IteratorWrap`) and
`utils/reference_counted.hpp` (type `ReferenceCountLockable`) are not part of
the sources; where their behaviour matters it is modelled from the spec, as
noted on the individual definitions.
-/

set_option autoImplicit false

namespace GuardedContainer

/-- The range of storage positions held by a `View`: `b` models `m_viewBegin`
and `e` models `m_viewEnd`, as indices into the underlying storage.  A view
captured by `acquireResources` spans the whole container at capture time,
so there `b = 0` and `e` is the storage length at that instant. -/
structure ViewRange where
  b : Nat
  e : Nat
deriving DecidableEq

/-- State of a `GuardedSequenceContainer`: the underlying storage
`m_container` and the optional stable view `m_lockedView`. -/
structure GC (α : Type) where
  container : List α
  lockedView : Option ViewRange
deriving DecidableEq

variable {α : Type}

/-- Modelled from the spec: `IteratorWrap` (containers/iterator.hpp, not under
the sources) skips, while traversing, every slot whose content fails the
validity predicate.  Position `i` is hence visitable iff it is in bounds and
its content satisfies the predicate. -/
def slotValid (valid : α → Bool) (xs : List α) (i : Nat) : Bool :=
  match xs.get? i with
  | some x => valid x
  | none => false

/-- `View::inView` (guarded_sequence_container.hpp:133): walks the view from
begin to end, comparing every visited position with `p`; the end position is
never compared.  The visited positions are modelled from the spec: iterator
increment skips predicate-failing slots, so traversal visits exactly the
in-bounds predicate-valid positions of `[v.b, v.e)`. -/
def inView (valid : α → Bool) (xs : List α) (v : ViewRange) (p : Nat) : Bool :=
  decide (v.b ≤ p) && decide (p < v.e) && slotValid valid xs p

/-- The elements an iteration of the view visits and dereferences, in order:
modelled from the spec, traversal skips predicate-failing slots, so these are
the contents of the in-bounds predicate-valid positions of `[v.b, v.e)`. -/
def viewYields (valid : α → Bool) (xs : List α) (v : ViewRange) : List α :=
  (xs.enum.filter fun p => decide (v.b ≤ p.1) && decide (p.1 < v.e) && valid p.2).map Prod.snd

/-- `View::size` (line 152): `std::distance(m_viewBegin, m_viewEnd)` over the
skipping iterator counts the predicate-valid slots of the view (per the spec,
size "counts only elements passing the predicate"). -/
def viewSize (valid : α → Bool) (xs : List α) (v : ViewRange) : Nat :=
  (viewYields valid xs v).length

/-- `View::find` (line 165): `std::find` over the skipping iterator returns
the first visited position whose content equals `item`, and the view's end
position on failure. -/
def findInView [DecidableEq α] (valid : α → Bool) (xs : List α) (v : ViewRange) (item : α) : Nat :=
  match xs.enum.find? (fun p =>
      decide (v.b ≤ p.1) && decide (p.1 < v.e) && valid p.2 && decide (p.2 = item)) with
  | some p => p.1
  | none => v.e

/-- Modelled from the spec: `ReferenceCountLockable::isLocked`
(utils/reference_counted.hpp, not under the sources); per the spec it is true
iff a stable view currently exists. -/
def isLocked (s : GC α) : Bool :=
  s.lockedView.isSome

/-- Number of storage slots lying between the view's begin and end positions:
the indices `i` with `v.b ≤ i < v.e` that address an existing slot. -/
def slotsInRange (xs : List α) (v : ViewRange) : Nat :=
  min v.e xs.length - v.b

/-- The locked branch of `clear` (line 197): `std::for_each` from the view's
begin to its end assigns `value_type()` to every visited element.  The visited
positions are modelled from the spec (traversal skips predicate-failing
slots); a slot already failing the predicate is skipped and keeps its content.
Overwrites happen only behind the cursor, so the visited positions are those
valid for the contents at call time. -/
def clearRange (valid : α → Bool) (d : α) (xs : List α) (v : ViewRange) : List α :=
  xs.enum.map fun p =>
    if decide (v.b ≤ p.1) && decide (p.1 < v.e) && valid p.2 then d else p.2

/-- `clear` (lines 193-203): when locked, tombstone every visited view
position in place; when unlocked, physically empty the storage. -/
def clear (valid : α → Bool) (d : α) (s : GC α) : GC α :=
  match s.lockedView with
  | some v => ⟨clearRange valid d s.container v, some v⟩
  | none => ⟨[], none⟩

/-- `insert` (lines 212-248), fuel-indexed because the unlocked branch
(lines 224 and 247) calls `insert` again with unchanged arguments; a result of
`none` means the call has not returned within `fuel` unfoldings.  When locked:
a position inside the view is rejected, returning `std::nullopt` and leaving
the state untouched; otherwise the item is inserted before `pos` and an
iterator to the new element is returned. -/
def insert (valid : α → Bool) : Nat → GC α → Nat → α → Option (Option Nat × GC α)
  | 0, _, _, _ => none
  | fuel + 1, s, pos, item =>
    match s.lockedView with
    | some v =>
      if inView valid s.container v pos then some (none, s)
      else some (some pos, ⟨s.container.insertIdx pos item, s.lockedView⟩)
    | none => insert valid fuel s pos item

/-- `erase` (lines 257-274).  Locked with `pos` in the view: reset the element
at `pos` to `value_type()` and return an iterator at that same position.
Locked with `pos` outside the view: physically erase and return
`std::nullopt`.  Unlocked: physically erase and return the iterator following
the erased element (which is the same index `pos` after the shift). -/
def erase (valid : α → Bool) (d : α) (s : GC α) (pos : Nat) : Option Nat × GC α :=
  match s.lockedView with
  | some v =>
    if inView valid s.container v pos then
      (some pos, ⟨s.container.set pos d, s.lockedView⟩)
    else
      (none, ⟨s.container.eraseIdx pos, s.lockedView⟩)
  | none => (some pos, ⟨s.container.eraseIdx pos, none⟩)

/-- `push_back` (lines 304-314): appends to the underlying storage, with no
lock-state check. -/
def push_back (s : GC α) (item : α) : GC α :=
  ⟨s.container ++ [item], s.lockedView⟩

/-- `acquireResources` (lines 321-328), invoked on the 0→1 lock transition:
if no stable view exists, capture one spanning the container's current
begin/end; return the stable view. -/
def acquireResources (s : GC α) : ViewRange × GC α :=
  match s.lockedView with
  | some v => (v, s)
  | none => (⟨0, s.container.length⟩, ⟨s.container, some ⟨0, s.container.length⟩⟩)

/-- `releaseResources` (lines 331-337), invoked on the 1→0 lock transition:
the erase–remove_if idiom removes from the storage every element failing
`valid_element` (net effect: keep exactly the predicate-valid elements, in
order), then the locked view is reset. -/
def releaseResources (valid : α → Bool) (s : GC α) : GC α :=
  ⟨s.container.filter valid, none⟩

/-- A concrete container instantiation used for witnesses: elements are `Nat`,
the default (tombstone) value is `0`, and an element is valid iff nonzero. -/
def validN : Nat → Bool := fun n => n != 0

/-- A second concrete instantiation: an element is valid iff odd, so `2` is a
predicate-invalid element that differs from the default value `0`. -/
def validO : Nat → Bool := fun n => n % 2 == 1

/-- Tombstoning in place never changes the number of storage slots. -/
theorem length_clearRange (valid : α → Bool) (d : α) (xs : List α) (v : ViewRange) :
    (clearRange valid d xs v).length = xs.length := by
  simp [clearRange]

/-- Pointwise description of the locked branch of `clear`: a visited (in-range,
predicate-valid) slot is reset to the default value, every other slot keeps
its content. -/
theorem getElem?_clearRange (valid : α → Bool) (d : α) (xs : List α) (v : ViewRange) (i : Nat) :
    (clearRange valid d xs v)[i]? =
      (xs[i]?).map fun x =>
        if decide (v.b ≤ i) && decide (i < v.e) && valid x then d else x := by
  unfold clearRange
  rw [List.getElem?_map, List.getElem?_enum]
  cases xs[i]? <;> simp

/-- An element is yielded by iterating the view iff it sits, valid, at some
in-bounds position of the view range. -/
theorem mem_viewYields_iff (valid : α → Bool) (xs : List α) (v : ViewRange) (x : α) :
    x ∈ viewYields valid xs v ↔
      ∃ i, v.b ≤ i ∧ i < v.e ∧ xs[i]? = some x ∧ valid x = true := by
  unfold viewYields
  constructor
  · intro hx
    obtain ⟨p, hp, hpx⟩ := List.mem_map.mp hx
    obtain ⟨hpe, hq⟩ := List.mem_filter.mp hp
    have hget := List.mem_enum_iff_getElem?.mp hpe
    simp only [Bool.and_eq_true, decide_eq_true_eq] at hq
    exact ⟨p.1, hq.1.1, hq.1.2, hpx ▸ hget, hpx ▸ hq.2⟩
  · rintro ⟨i, hbi, hie, hget, hvx⟩
    refine List.mem_map.mpr ⟨(i, x), List.mem_filter.mpr ⟨?_, ?_⟩, rfl⟩
    · exact List.mem_enum_iff_getElem?.mpr hget
    · simp [hbi, hie, hvx]

/-- If every in-bounds slot of the view range fails the predicate, iterating
the view yields nothing. -/
theorem viewYields_eq_nil (valid : α → Bool) (xs : List α) (v : ViewRange)
    (h : ∀ i x, v.b ≤ i → i < v.e → xs[i]? = some x → valid x = false) :
    viewYields valid xs v = [] := by
  unfold viewYields
  have hf : xs.enum.filter
      (fun p => decide (v.b ≤ p.1) && decide (p.1 < v.e) && valid p.2) = [] := by
    refine List.filter_eq_nil_iff.mpr ?_
    intro p hp
    have hget := List.mem_enum_iff_getElem?.mp hp
    simp only [Bool.and_eq_true, decide_eq_true_eq, not_and]
    intro hrange hvp
    exact absurd hvp (by simp [h p.1 p.2 hrange.1 hrange.2 hget])
  rw [hf, List.map_nil]

/-- If no valid in-bounds slot of the view range holds `item`, `View::find`
returns the view's end position. -/
theorem findInView_eq_end [DecidableEq α] (valid : α → Bool) (xs : List α) (v : ViewRange)
    (item : α)
    (h : ∀ i x, v.b ≤ i → i < v.e → xs[i]? = some x → valid x = true → x ≠ item) :
    findInView valid xs v item = v.e := by
  unfold findInView
  rw [List.find?_eq_none.mpr]
  intro p hp
  have hget := List.mem_enum_iff_getElem?.mp hp
  simp only [Bool.and_eq_true, decide_eq_true_eq, not_and]
  intro hr hie
  exact h p.1 p.2 hr.1.1 hr.1.2 hget hr.2 hie

/-- C2 — confirmed.  `releaseResources` sweeps the whole storage, removing
every slot failing the validity predicate and discarding the stable view:
afterwards, for every prior state, the physical element count equals the
number of predicate-valid elements and no predicate-invalid slot (tombstone)
remains. -/
theorem C2_release_compacts (valid : α → Bool) (s : GC α) :
    (releaseResources valid s).container = s.container.filter valid ∧
    (releaseResources valid s).container.length = s.container.countP valid ∧
    (∀ x ∈ (releaseResources valid s).container, valid x = true) ∧
    (releaseResources valid s).lockedView = none := by
  refine ⟨rfl, ?_, ?_, rfl⟩
  · show (s.container.filter valid).length = s.container.countP valid
    rw [List.countP_eq_length_filter]
  · intro x hx
    exact (List.mem_filter.mp hx).2

/-- C3 — the unlocked branch of `insert` (line 224) calls itself with
unchanged arguments: on an unlocked container the call never returns, so no
element is ever inserted and no iterator produced, for any amount of fuel. -/
theorem C3_insert_unlocked_never_returns :
    ∀ fuel : Nat, insert validN fuel ⟨[1, 2], none⟩ 1 7 = none := by
  intro fuel
  induction fuel with
  | zero => rfl
  | succ n ih => simpa [insert] using ih

/-- C4 — `insert` on any unlocked container diverges (the unlocked branch
recurses into itself with identical arguments), so the mutation API is not
total: for every fuel bound the call has not returned. -/
theorem C4_insert_diverges_when_unlocked (valid : α → Bool) (s : GC α) (pos : Nat)
    (item : α) (fuel : Nat) (h : s.lockedView = none) :
    insert valid fuel s pos item = none := by
  induction fuel with
  | zero => rfl
  | succ n ih => simp only [insert, h]; exact ih

/-- Witness for C4 at the unlocked empty container. -/
theorem C4_insert_diverges_witness :
    (⟨[], none⟩ : GC Nat).lockedView = none ∧ insert validN 5 ⟨[], none⟩ 0 3 = none :=
  ⟨rfl, C4_insert_diverges_when_unlocked validN ⟨[], none⟩ 0 3 5 rfl⟩

/-- C5 — confirmed.  Erasing at a position inside the locked view does not
remove the slot: the element is overwritten with the default value, an
iterator at that same position is returned, the physical slot count and the
stable view are unchanged. -/
theorem C5_erase_tombstones_in_view (valid : α → Bool) (d : α) (s : GC α)
    (v : ViewRange) (pos : Nat)
    (hlock : s.lockedView = some v) (hin : inView valid s.container v pos = true) :
    (erase valid d s pos).1 = some pos ∧
    (erase valid d s pos).2.container = s.container.set pos d ∧
    (erase valid d s pos).2.container.length = s.container.length ∧
    (erase valid d s pos).2.lockedView = some v := by
  simp [erase, hlock, hin]

/-- Witness for C5: tombstoning position 1 of `[1, 2]` under view `[0, 2)`. -/
theorem C5_erase_tombstones_witness :
    (⟨[1, 2], some ⟨0, 2⟩⟩ : GC Nat).lockedView = some ⟨0, 2⟩ ∧
    inView validN [1, 2] ⟨0, 2⟩ 1 = true ∧
    (erase validN 0 ⟨[1, 2], some ⟨0, 2⟩⟩ 1).1 = some 1 ∧
    (erase validN 0 ⟨[1, 2], some ⟨0, 2⟩⟩ 1).2.container = [1, 0] :=
  ⟨rfl, by decide,
    (C5_erase_tombstones_in_view validN 0 ⟨[1, 2], some ⟨0, 2⟩⟩ ⟨0, 2⟩ 1 rfl (by decide)).1,
    by decide⟩

/-- C6 — confirmed.  Erasing, while locked, at a position the view traversal
does not visit physically removes the element (the count drops by one) and
returns an empty result. -/
theorem C6_erase_outside_view (valid : α → Bool) (d : α) (s : GC α)
    (v : ViewRange) (pos : Nat)
    (hlock : s.lockedView = some v) (hout : inView valid s.container v pos = false)
    (hpos : pos < s.container.length) :
    (erase valid d s pos).1 = none ∧
    (erase valid d s pos).2.container = s.container.eraseIdx pos ∧
    (erase valid d s pos).2.container.length + 1 = s.container.length := by
  refine ⟨?_, ?_, ?_⟩ <;> simp [erase, hlock, hout, List.length_eraseIdx_add_one hpos]

/-- Witness for C6: erasing the appended element at position 2, outside the
view `[0, 2)`. -/
theorem C6_erase_outside_witness :
    (⟨[1, 2, 3], some ⟨0, 2⟩⟩ : GC Nat).lockedView = some ⟨0, 2⟩ ∧
    inView validN [1, 2, 3] ⟨0, 2⟩ 2 = false ∧
    (2 : Nat) < 3 ∧
    (erase validN 0 ⟨[1, 2, 3], some ⟨0, 2⟩⟩ 2).1 = none ∧
    (erase validN 0 ⟨[1, 2, 3], some ⟨0, 2⟩⟩ 2).2.container.length + 1 = 3 :=
  ⟨rfl, by decide, by decide,
    (C6_erase_outside_view validN 0 ⟨[1, 2, 3], some ⟨0, 2⟩⟩ ⟨0, 2⟩ 2 rfl (by decide)
      (by decide)).1,
    (C6_erase_outside_view validN 0 ⟨[1, 2, 3], some ⟨0, 2⟩⟩ ⟨0, 2⟩ 2 rfl (by decide)
      (by decide)).2.2⟩

/-- C9 — confirmed.  The first-lock hook is idempotent: with no stable view it
captures one spanning the container's current begin/end; with a stable view
already present it changes nothing and returns that same view. -/
theorem C9_acquire_idempotent (s : GC α) :
    (acquireResources s).2.lockedView = some (acquireResources s).1 ∧
    (∀ v, s.lockedView = some v → acquireResources s = (v, s)) ∧
    (s.lockedView = none →
      acquireResources s =
        (⟨0, s.container.length⟩, ⟨s.container, some ⟨0, s.container.length⟩⟩)) ∧
    acquireResources (acquireResources s).2 = ((acquireResources s).1, (acquireResources s).2) := by
  cases h : s.lockedView with
  | some v =>
    refine ⟨?_, ?_, ?_, ?_⟩ <;> simp [acquireResources, h]
  | none =>
    refine ⟨?_, ?_, ?_, ?_⟩ <;> simp [acquireResources, h]

/-- C10 — confirmed.  A rejected insert (locked, position inside the view) is
atomic in failure: it returns an empty result and the state — storage
contents, slot count and stable view — is exactly the pre-call state. -/
theorem C10_rejected_insert_noop (valid : α → Bool) (s : GC α) (v : ViewRange)
    (pos fuel : Nat) (item : α)
    (hlock : s.lockedView = some v) (hin : inView valid s.container v pos = true) :
    insert valid (fuel + 1) s pos item = some (none, s) := by
  simp [insert, hlock, hin]

/-- Witness for C10: rejected insert at position 0 of a locked container. -/
theorem C10_rejected_insert_witness :
    (⟨[1, 2], some ⟨0, 2⟩⟩ : GC Nat).lockedView = some ⟨0, 2⟩ ∧
    inView validN [1, 2] ⟨0, 2⟩ 0 = true ∧
    insert validN 1 ⟨[1, 2], some ⟨0, 2⟩⟩ 0 9 = some (none, ⟨[1, 2], some ⟨0, 2⟩⟩) :=
  ⟨rfl, by decide, C10_rejected_insert_noop validN ⟨[1, 2], some ⟨0, 2⟩⟩ ⟨0, 2⟩ 0 0 9 rfl (by decide)⟩

/-- C1 (counterexample) — in the reachable locked state `[1, 2]` with view
`[0, 2)`, erasing position 1 tombstones it; a second erase at position 1 is
not found by the view traversal (the slot now fails the predicate), so it is
physically removed and the slot count inside the view range drops from 2
to 1. -/
theorem C1_slot_count_counterexample :
    (acquireResources (⟨[1, 2], none⟩ : GC Nat)).2 = ⟨[1, 2], some ⟨0, 2⟩⟩ ∧
    erase validN 0 ⟨[1, 2], some ⟨0, 2⟩⟩ 1 = (some 1, ⟨[1, 0], some ⟨0, 2⟩⟩) ∧
    erase validN 0 ⟨[1, 0], some ⟨0, 2⟩⟩ 1 = (none, ⟨[1], some ⟨0, 2⟩⟩) ∧
    slotsInRange [1, 0] ⟨0, 2⟩ = 2 ∧
    slotsInRange [1] ⟨0, 2⟩ = 1 := by decide

/-- C1 (amended) — while the stable view exists (and its end lies within the
storage, as at capture), `clear`, `push_back`, every completed `insert`, and
every `erase` whose position is either visited by the view traversal or at or
beyond the view end, leave the number of storage slots between the view's
begin and end positions unchanged.  (The excluded case — `erase` at an
in-range position whose slot fails the predicate — physically removes a slot
of the range.) -/
theorem C1_slot_count_stable (valid : α → Bool) (d item : α) (s : GC α)
    (v : ViewRange) (pos fuel : Nat)
    (hlock : s.lockedView = some v) (hcap : v.e ≤ s.container.length) :
    slotsInRange (clear valid d s).container v = slotsInRange s.container v ∧
    slotsInRange (push_back s item).container v = slotsInRange s.container v ∧
    (∀ r, insert valid (fuel + 1) s pos item = some r →
      slotsInRange r.2.container v = slotsInRange s.container v) ∧
    (inView valid s.container v pos = true ∨ v.e ≤ pos →
      slotsInRange (erase valid d s pos).2.container v = slotsInRange s.container v) := by
  refine ⟨?_, ?_, ?_, ?_⟩
  · simp [clear, hlock, slotsInRange, length_clearRange]
  · simp only [push_back, slotsInRange, List.length_append, List.length_cons,
      List.length_nil]
    omega
  · intro r hr
    simp only [insert, hlock] at hr
    by_cases hin : inView valid s.container v pos
    · rw [if_pos hin] at hr
      cases hr
      rfl
    · rw [if_neg hin] at hr
      cases hr
      have hlen := List.length_le_length_insertIdx s.container item pos
      simp only [slotsInRange]
      omega
  · intro hcase
    rcases hcase with hin | hge
    · simp [erase, hlock, hin, slotsInRange, List.length_set]
    · have hnlt : ¬ (pos < v.e) := Nat.not_lt.mpr hge
      have hnin : inView valid s.container v pos = false := by
        simp [inView, hnlt]
      simp only [erase, hlock, hnin, Bool.false_eq_true, if_false]
      by_cases hlt : pos < s.container.length
      · have hdec := List.length_eraseIdx_add_one hlt
        simp only [slotsInRange]
        omega
      · rw [List.eraseIdx_of_length_le (Nat.le_of_not_lt hlt)]

/-- Witness for C1 (amended): clearing the locked container `[1, 2]` keeps
both slots of the view range. -/
theorem C1_slot_count_stable_witness :
    (⟨[1, 2], some ⟨0, 2⟩⟩ : GC Nat).lockedView = some ⟨0, 2⟩ ∧
    (2 : Nat) ≤ 2 ∧
    slotsInRange (clear validN 0 ⟨[1, 2], some ⟨0, 2⟩⟩).container ⟨0, 2⟩ =
      slotsInRange [1, 2] ⟨0, 2⟩ :=
  ⟨rfl, by decide,
    (C1_slot_count_stable validN 0 7 ⟨[1, 2], some ⟨0, 2⟩⟩ ⟨0, 2⟩ 0 0 rfl (by decide)).1⟩

/-- C7 (counterexample) — `clear` while locked does not overwrite every
position of the view range: under the odd-only predicate the slot holding `2`
already fails the predicate, the traversal skips it, and its content stays
`2`, not the default value `0`. -/
theorem C7_clear_skips_invalid_slot :
    isLocked (⟨[2], some ⟨0, 1⟩⟩ : GC Nat) = true ∧
    validO 2 = false ∧
    (clear validO 0 ⟨[2], some ⟨0, 1⟩⟩).container = [2] ∧
    (2 : Nat) ≠ 0 := by decide

/-- C7 (amended) — provided the default value fails the predicate: `clear`
while locked overwrites every predicate-valid position of the view range with
the default value and leaves every predicate-failing slot unchanged; the
physical slot count and the view are unchanged and iterating the view yields
nothing.  `clear` while unlocked physically empties the storage. -/
theorem C7_clear_semantics (valid : α → Bool) (d : α) (hd : valid d = false) :
    (∀ (s : GC α) (v : ViewRange), s.lockedView = some v →
      (clear valid d s).container.length = s.container.length ∧
      (clear valid d s).lockedView = some v ∧
      viewYields valid (clear valid d s).container v = [] ∧
      (∀ i x, s.container[i]? = some x →
        (clear valid d s).container[i]? =
          some (if v.b ≤ i ∧ i < v.e ∧ valid x = true then d else x))) ∧
    (∀ s : GC α, s.lockedView = none → clear valid d s = ⟨[], none⟩) := by
  constructor
  · intro s v hlock
    refine ⟨?_, ?_, ?_, ?_⟩
    · simp [clear, hlock, length_clearRange]
    · simp [clear, hlock]
    · simp only [clear, hlock]
      apply viewYields_eq_nil
      intro i x hbi hie hget
      rw [getElem?_clearRange] at hget
      cases hc : s.container[i]? with
      | none => rw [hc] at hget; simp at hget
      | some y =>
        rw [hc] at hget
        simp only [Option.map_some'] at hget
        cases hget
        by_cases hv : valid y = true
        · simp [hbi, hie, hv, hd]
        · have hv' : valid y = false := by
            cases hvy : valid y
            · rfl
            · exact absurd hvy hv
          simp [hv']
    · intro i x hget
      simp only [clear, hlock]
      rw [getElem?_clearRange, hget]
      simp only [Option.map_some']
      congr 1
      by_cases h1 : v.b ≤ i <;> by_cases h2 : i < v.e <;> by_cases h3 : valid x = true <;>
        simp [h1, h2, h3]
  · intro s h
    simp [clear, h]

/-- Witness for C7 (amended): clearing the locked container `[1, 2, 3]` keeps
three slots and leaves nothing for the view to yield. -/
theorem C7_clear_semantics_witness :
    validN 0 = false ∧
    viewYields validN (clear validN 0 ⟨[1, 2, 3], some ⟨0, 3⟩⟩).container ⟨0, 3⟩ = [] :=
  ⟨rfl, ((C7_clear_semantics validN 0 rfl).1 ⟨[1, 2, 3], some ⟨0, 3⟩⟩ ⟨0, 3⟩ rfl).2.2.1⟩

/-- C8 (counterexample) — tombstoning position 0 of `[5, 5]` while locked does
not make the old value `5` invisible: the duplicate at position 1 is still
predicate-valid, iteration yields it and `View::find` returns position 1, not
the end position 2. -/
theorem C8_duplicate_value_counterexample :
    (⟨[5, 5], some ⟨0, 2⟩⟩ : GC Nat).lockedView = some ⟨0, 2⟩ ∧
    inView validN [5, 5] ⟨0, 2⟩ 0 = true ∧
    (erase validN 0 ⟨[5, 5], some ⟨0, 2⟩⟩ 0).2.container = [0, 5] ∧
    5 ∈ viewYields validN [0, 5] ⟨0, 2⟩ ∧
    findInView validN [0, 5] ⟨0, 2⟩ 5 = 1 ∧
    (1 : Nat) ≠ 2 := by decide

/-- C8 (amended) — provided the default value fails the predicate and the old
value occurs at no other predicate-valid position of the view: after
tombstoning the element at `pos` while locked, the slot still physically
exists, iterating the view never yields the old value, and `View::find` on
the old value returns the view's end position. -/
theorem C8_tombstone_invisible [DecidableEq α] (valid : α → Bool) (d : α) (s : GC α)
    (v : ViewRange) (pos : Nat) (old : α)
    (hlock : s.lockedView = some v) (hin : inView valid s.container v pos = true)
    (hold : s.container[pos]? = some old) (hd : valid d = false)
    (huniq : ∀ i x, v.b ≤ i → i < v.e → i ≠ pos → s.container[i]? = some x →
      valid x = true → x ≠ old) :
    ((erase valid d s pos).2.container[pos]?).isSome = true ∧
    old ∉ viewYields valid (erase valid d s pos).2.container v ∧
    findInView valid (erase valid d s pos).2.container v old = v.e := by
  have hcont : (erase valid d s pos).2.container = s.container.set pos d := by
    simp [erase, hlock, hin]
  have hlt : pos < s.container.length := by
    by_contra hge
    rw [List.getElem?_eq_none (Nat.le_of_not_lt hge)] at hold
    cases hold
  have hset : (s.container.set pos d)[pos]? = some d := by
    simp [List.getElem?_set_self', List.getElem?_eq_getElem, hlt]
  have hvold : valid old = true := by
    simp only [inView, Bool.and_eq_true, decide_eq_true_eq] at hin
    have hsv := hin.2
    rw [slotValid, List.get?_eq_getElem?, hold] at hsv
    exact hsv
  have hod : old ≠ d := by
    intro heq
    rw [heq, hd] at hvold
    cases hvold
  rw [hcont]
  refine ⟨?_, ?_, ?_⟩
  · rw [hset]; rfl
  · intro hmem
    rw [mem_viewYields_iff] at hmem
    obtain ⟨i, hbi, hie, hget, hv⟩ := hmem
    by_cases hip : i = pos
    · rw [hip, hset] at hget
      cases hget
      exact hod rfl
    · rw [List.getElem?_set_ne (fun h => hip h.symm)] at hget
      exact huniq i old hbi hie hip hget hv rfl
  · apply findInView_eq_end
    intro i x hbi hie hget hv
    by_cases hip : i = pos
    · rw [hip, hset] at hget
      cases hget
      rw [hd] at hv
      cases hv
    · rw [List.getElem?_set_ne (fun h => hip h.symm)] at hget
      exact huniq i x hbi hie hip hget hv

/-- Witness for C8 (amended): after tombstoning the only element of `[1]`,
`View::find` on the old value `1` returns the end position. -/
theorem C8_tombstone_invisible_witness :
    findInView validN (erase validN 0 ⟨[1], some ⟨0, 1⟩⟩ 0).2.container ⟨0, 1⟩ 1 = 1 :=
  (C8_tombstone_invisible validN 0 ⟨[1], some ⟨0, 1⟩⟩ ⟨0, 1⟩ 0 1 rfl (by decide)
    (by decide) (by decide)
    (by
      intro i x hbi hie hne hget hv
      have hie' : i < 1 := hie
      omega)).2.2

end GuardedContainer
